import Mathlib

/-!
Verification development for the HR-management resume pipeline.

The definitions below are shallow embeddings of the JavaScript sources:
  * `backend/utils/atsScoring.js`  — `calculateATSScore`, `calculateAllJobRoleScores`
  * `backend/utils/resumeParser.js` — `parseResumeData`, `splitMultipleResumes`
  * `backend/routes/candidates.js` — the job-role queries of the upload routes

Strings are modelled as `List Char` (`Str`).  JavaScript numbers appearing in
the scoring arithmetic are modelled as `ℚ` (all values arising there are exact
small rationals, so this is faithful); `Math.round` is round-half-up, i.e.
`⌊q + 1/2⌋`.
-/

set_option allowUnsafeReducibility true

set_option maxRecDepth 16384

attribute [local semireducible] Rat.add Rat.mul Rat.div Rat.sub Rat.neg Rat.inv

/-- Strings are lists of characters. -/
abbrev Str := List Char

/-- Conversion helper from Lean string literals. -/
def str (s : String) : Str := s.data

/-- Lowercasing a string, as JavaScript `toLowerCase` does on ASCII text. -/
def lowerStr (s : Str) : Str := s.map Char.toLower

/-- JavaScript `hay.includes(needle)`: substring containment test. -/
def strContains : Str → Str → Bool
  | [], needle => needle.isEmpty
  | c :: t, needle => needle.isPrefixOf (c :: t) || strContains t needle

/-! ## Data model (spec §3, `models/JobRole.js`, parser output shape) -/

/-- One education entry produced by the parser; only `degree` is ever
populated by the heuristics. -/
structure EducationEntry where
  degree : Str
  institution : Str
  year : Str
deriving DecidableEq, Repr

/-- The parser's experience sub-object (`experience: { years, companies }`). -/
structure ExperienceInfo where
  years : ℕ
  companies : List Str
deriving DecidableEq, Repr

/-- Candidate facts, as consumed by the scoring engine: the route attaches
`extractedText` to the parser output before scoring. -/
structure CandidateData where
  skills : List Str
  extractedText : Str
  experience : ExperienceInfo
  education : List EducationEntry
deriving DecidableEq, Repr

/-- Experience level enum of the `JobRole` schema
(`enum: ['entry', 'mid', 'senior', 'lead']`). -/
inductive ExperienceLevel where
  | entry
  | mid
  | senior
  | lead
deriving DecidableEq, Repr

/-- One required skill with its weight (schema: `min: 0.1, max: 5`,
`default: 1`). -/
structure RequiredSkill where
  skill : Str
  weight : ℚ
deriving DecidableEq, Repr

/-- A job role definition; `id` models the Mongo `_id`, `createdBy` the
owning user. -/
structure JobRole where
  id : ℕ
  requiredSkills : List RequiredSkill
  experienceLevel : ExperienceLevel
  isActive : Bool
  createdBy : ℕ
deriving DecidableEq, Repr

/-- Match type of a matched skill (`'direct'` or `'text'`). -/
inductive MatchType where
  | direct
  | text
deriving DecidableEq, Repr

/-- Entry of the `matchedSkills` array built by `calculateATSScore`. -/
structure MatchedSkill where
  skill : Str
  weight : ℚ
  matchType : MatchType
deriving DecidableEq, Repr

/-- The `breakdown` object of a score result. -/
structure ScoreBreakdown where
  skillsScore : ℤ
  experienceBonus : ℚ
  educationBonus : ℚ
deriving DecidableEq, Repr

/-- Result of `calculateATSScore`.  In the degenerate no-required-skills case
the JavaScript function returns an object without a `breakdown` field, hence
the `Option`. -/
structure ScoreResult where
  score : ℤ
  matchedSkills : List MatchedSkill
  breakdown : Option ScoreBreakdown
deriving DecidableEq, Repr

/-- One entry of the `jobRoleScores` array of `calculateAllJobRoleScores`. -/
structure RoleScoreEntry where
  jobRole : ℕ
  score : ℤ
  matchedSkills : List MatchedSkill
  breakdown : Option ScoreBreakdown
deriving DecidableEq, Repr

/-- Summary returned by `calculateAllJobRoleScores`. -/
structure ScoreSummary where
  jobRoleScores : List RoleScoreEntry
  bestMatchJobRole : Option ℕ
  bestMatchScore : ℤ
deriving DecidableEq, Repr

/-! ## Scoring engine (`atsScoring.js`) -/

/-- JavaScript `Math.round`: round half up, `⌊q + 1/2⌋` (written with the
executable `Rat.floor`; see `jsRound_eq`). -/
def jsRound (q : ℚ) : ℤ := (q + 1/2).floor

/-- JavaScript `requiredSkill.weight || 1`: a zero (falsy) weight is replaced
by 1. -/
def effWeight (r : RequiredSkill) : ℚ := if r.weight = 0 then 1 else r.weight

/-- Direct match: the lowercased skill is explicitly listed in the candidate's
(lowercased) skills, `candidateSkills.includes(skillLower)`. -/
def directMatchB (c : CandidateData) (r : RequiredSkill) : Bool :=
  (c.skills.map lowerStr).contains (lowerStr r.skill)

/-- Text match: the lowercased skill occurs in the lowercased resume text,
`candidateText.includes(skillLower)`. -/
def textMatchB (c : CandidateData) (r : RequiredSkill) : Bool :=
  strContains (lowerStr c.extractedText) (lowerStr r.skill)

/-- A required skill counts as matched if either test succeeds. -/
def skillMatchedB (c : CandidateData) (r : RequiredSkill) : Bool :=
  directMatchB c r || textMatchB c r

/-- Accumulated `totalWeight` of the `forEach` loop. -/
def totalWeight (j : JobRole) : ℚ := (j.requiredSkills.map effWeight).sum

/-- Accumulated `matchedWeight` of the `forEach` loop. -/
def matchedWeight (c : CandidateData) (j : JobRole) : ℚ :=
  (j.requiredSkills.map (fun r => if skillMatchedB c r then effWeight r else 0)).sum

/-- The `matchedSkills` array: one entry per matched required skill, in order,
with the effective weight and the match type. -/
def matchedSkillsOf (c : CandidateData) (j : JobRole) : List MatchedSkill :=
  (j.requiredSkills.filter (fun r => skillMatchedB c r)).map (fun r =>
    { skill := r.skill, weight := effWeight r,
      matchType := if directMatchB c r then MatchType.direct else MatchType.text })

/-- The `baseScore` expression: `(matchedWeight / totalWeight) * 80` when
`totalWeight > 0`, else 0. -/
def baseScore (c : CandidateData) (j : JobRole) : ℚ :=
  if 0 < totalWeight j then matchedWeight c j / totalWeight j * 80 else 0

/-- Experience bonus table (`switch (jobRole.experienceLevel)`). -/
def experienceBonus : ExperienceLevel → ℕ → ℚ
  | ExperienceLevel.entry, y => if y ≤ 2 then 10 else if y ≤ 5 then 5 else 0
  | ExperienceLevel.mid, y => if 2 ≤ y ∧ y ≤ 7 then 10 else 5
  | ExperienceLevel.senior, y => if 5 ≤ y then 10 else if 3 ≤ y then 5 else 0
  | ExperienceLevel.lead, y => if 8 ≤ y then 10 else if 5 ≤ y then 5 else 0

/-- Keywords whose presence in a degree makes the education "relevant". -/
def eduRelevantKeywords : List Str :=
  [str "computer", str "engineering", str "science", str "technology",
   str "business", str "management"]

/-- Education bonus: 10 for a relevant degree, 5 for any education at all,
0 otherwise. -/
def educationBonus (c : CandidateData) : ℚ :=
  if c.education.isEmpty then 0
  else if c.education.any (fun e =>
      eduRelevantKeywords.any (fun k => strContains (lowerStr e.degree) k)) then 10
  else 5

/-- `calculateATSScore(candidateData, jobRole)` from `atsScoring.js`:
`finalScore = Math.min(100, Math.round(baseScore + experienceBonus +
educationBonus))`. -/
def calculateATSScore (c : CandidateData) (j : JobRole) : ScoreResult :=
  if j.requiredSkills.isEmpty then
    { score := 0, matchedSkills := [], breakdown := none }
  else
    { score := min 100 (jsRound (baseScore c j +
        experienceBonus j.experienceLevel c.experience.years + educationBonus c)),
      matchedSkills := matchedSkillsOf c j,
      breakdown := some { skillsScore := jsRound (baseScore c j),
                          experienceBonus :=
                            experienceBonus j.experienceLevel c.experience.years,
                          educationBonus := educationBonus c } }

/-- The best-score tracking loop of `calculateAllJobRoleScores`: starts with
`bestScore = 0`, `bestJobRole = null`, updates on a strict `>` comparison. -/
def bestFold (c : CandidateData) : List JobRole → ℤ → Option ℕ → ℤ × Option ℕ
  | [], best, bestRole => (best, bestRole)
  | j :: js, best, bestRole =>
    if best < (calculateATSScore c j).score then
      bestFold c js ((calculateATSScore c j).score) (some j.id)
    else
      bestFold c js best bestRole

/-- `calculateAllJobRoleScores(candidateData, jobRoles)` from
`atsScoring.js`. -/
def calculateAllJobRoleScores (c : CandidateData) (roles : List JobRole) :
    ScoreSummary :=
  { jobRoleScores := roles.map (fun j =>
      { jobRole := j.id, score := (calculateATSScore c j).score,
        matchedSkills := (calculateATSScore c j).matchedSkills,
        breakdown := (calculateATSScore c j).breakdown }),
    bestMatchJobRole := (bestFold c roles 0 none).2,
    bestMatchScore := (bestFold c roles 0 none).1 }

/-! ## Job-role selection of the upload routes (`routes/candidates.js`)

The routes read the roles used for scoring from storage.  We model the Mongo
`find` calls as filters over the stored role list. -/

/-- Query of the single-upload route:
`JobRole.find({ isActive: true, createdBy: req.user.id })`. -/
def jobRolesForSingleUpload (roles : List JobRole) (uid : ℕ) : List JobRole :=
  roles.filter (fun r => r.isActive && r.createdBy == uid)

/-- Query of the bulk-upload route: `JobRole.find({ isActive: true })` —
note the absence of the `createdBy` scope present on the single-upload
route. -/
def jobRolesForBulkUpload (roles : List JobRole) : List JobRole :=
  roles.filter (fun r => r.isActive)

/-! ## Sample data used by concrete witnesses and counterexamples -/

/-- A candidate with no facts at all. -/
def emptyCandidate : CandidateData :=
  { skills := [], extractedText := [], experience := ⟨0, []⟩, education := [] }

/-- A job role with no required skills (degenerate, score 0). -/
def emptyRole1 : JobRole :=
  { id := 1, requiredSkills := [], experienceLevel := ExperienceLevel.entry,
    isActive := true, createdBy := 1 }

/-- A second job role with no required skills. -/
def emptyRole2 : JobRole :=
  { id := 2, requiredSkills := [], experienceLevel := ExperienceLevel.entry,
    isActive := true, createdBy := 1 }

/-- A candidate knowing python, used by several concrete checks. -/
def pyCandidate : CandidateData :=
  { skills := [str "python"], extractedText := str "python developer",
    experience := ⟨3, []⟩, education := [] }

/-- A role requiring python (scores 90 against `pyCandidate`). -/
def pyRole : JobRole :=
  { id := 7, requiredSkills := [{ skill := str "python", weight := 1 }],
    experienceLevel := ExperienceLevel.mid, isActive := true, createdBy := 1 }

/-- Active role owned by user 1 requiring java. -/
def c6RoleOwn : JobRole :=
  { id := 10, requiredSkills := [{ skill := str "java", weight := 1 }],
    experienceLevel := ExperienceLevel.mid, isActive := true, createdBy := 1 }

/-- Active role owned by a different user (user 2) requiring python. -/
def c6RoleOther : JobRole :=
  { id := 99, requiredSkills := [{ skill := str "python", weight := 1 }],
    experienceLevel := ExperienceLevel.mid, isActive := true, createdBy := 2 }

/-- Adding one skill string to a candidate's skill list. -/
def addSkill (c : CandidateData) (s : Str) : CandidateData :=
  { c with skills := s :: c.skills }

/-! ## Character classes and basic string operations (JavaScript semantics) -/

/-- JavaScript whitespace (`\s`, `trim`): the ASCII whitespace characters
(the sources only meet ASCII text). -/
def isJsWs (c : Char) : Bool :=
  c == ' ' || c == '\t' || c == '\n' || c == '\r' || c == '\x0b' || c == '\x0c'

/-- JavaScript `\w` word character, used by the `\b` boundary. -/
def wordChar (c : Char) : Bool := c.isAlphanum || c == '_'

/-- JavaScript `String.prototype.trim`. -/
def jsTrim (s : Str) : Str :=
  ((s.dropWhile isJsWs).reverse.dropWhile isJsWs).reverse

/-- Newline normalization `text.replace(/\r\n?/g, '\n')`. -/
def normNl : Str → Str
  | [] => []
  | '\r' :: '\n' :: t => '\n' :: normNl t
  | '\r' :: t => '\n' :: normNl t
  | c :: t => c :: normNl t

/-- JavaScript `text.split('\n')`. -/
def splitOnNl : Str → List Str
  | [] => [[]]
  | '\n' :: t => [] :: splitOnNl t
  | c :: t =>
    match splitOnNl t with
    | [] => [[c]]
    | l :: ls => (c :: l) :: ls

/-- JavaScript `s.slice(a, b)` for the in-range uses of the sources. -/
def jsSlice (s : Str) (a b : ℕ) : Str := (s.drop a).take (b - a)

/-- Case-insensitive prefix strip: `some rest` when the input starts with the
pattern, comparing lowercased characters. -/
def stripPrefixCI : Str → Str → Option Str
  | [], s => some s
  | _ :: _, [] => none
  | n :: ns, c :: cs =>
    if n.toLower = c.toLower then stripPrefixCI ns cs else none

/-- Case-insensitive containment (a literal-alternative `/…/i.test`, or
`lowercased.includes(needle)`). -/
def containsCI (hay needle : Str) : Bool :=
  strContains (lowerStr hay) (lowerStr needle)

/-! ## A small backtracking regex core

A matcher consumes a prefix of its input and returns the possible remainders
in the preference (backtracking) order of the JavaScript regex engine; the
head of the list is the preferred match. -/

/-- Matchers: input suffix to ordered candidate remainders. -/
def Matcher := Str → List Str

/-- Sequencing (preference order preserved). -/
def mSeq (a b : Matcher) : Matcher := fun s => (a s).flatMap b

/-- Greedy option `x?`: try to match, then try the empty match. -/
def mOpt (a : Matcher) : Matcher := fun s => a s ++ [s]

/-- Single character from a class. -/
def mChar (p : Char → Bool) : Matcher := fun s =>
  match s with
  | [] => []
  | c :: t => if p c then [t] else []

/-- Greedy `{lo,}` repetition of a character class: consume the maximal run
first, then backtrack down to `lo` characters. -/
def mClassAtLeast (p : Char → Bool) (lo : ℕ) : Matcher := fun s =>
  let k := (s.takeWhile p).length
  if k < lo then []
  else (List.range (k + 1 - lo)).map (fun jj => s.drop (k - jj))

/-- Greedy `{lo,hi}` repetition of a character class. -/
def mClassBounded (p : Char → Bool) (lo hi : ℕ) : Matcher := fun s =>
  let k := min hi (s.takeWhile p).length
  if k < lo then []
  else (List.range (k + 1 - lo)).map (fun jj => s.drop (k - jj))

/-! ## Email matching (segmenter regex
`/\b[A-Za-z0-9._%+-]+@[A-Za-z0-9.-]+\.[A-Za-z]{2,}\b/g`) -/

/-- Local-part class `[A-Za-z0-9._%+-]`. -/
def emailLocalChar (c : Char) : Bool :=
  c.isAlphanum || c == '.' || c == '_' || c == '%' || c == '+' || c == '-'

/-- Domain class `[A-Za-z0-9.-]`. -/
def emailDomChar (c : Char) : Bool := c.isAlphanum || c == '.' || c == '-'

/-- The email pattern body (the `\b` anchors are handled by the scanners). -/
def emailCore : Matcher :=
  mSeq (mClassAtLeast emailLocalChar 1)
    (mSeq (mChar (fun c => c == '@'))
      (mSeq (mClassAtLeast emailDomChar 1)
        (mSeq (mChar (fun c => c == '.')) (mClassAtLeast Char.isAlpha 2))))

/-- Word-character test of the character at index `i` (false out of range). -/
def wordAtIdx (s : Str) (i : ℕ) : Bool :=
  match s.drop i with
  | c :: _ => wordChar c
  | [] => false

/-- Word boundary `\b` between positions `i - 1` and `i` of `s`. -/
def bndAt (s : Str) (i : ℕ) : Bool :=
  (if i = 0 then false else wordAtIdx s (i - 1)) != wordAtIdx s i

/-- First candidate remainder whose end position satisfies the trailing
`\b`, together with the consumed length. -/
def firstRemWithEndBnd (s : Str) : List Str → Option (ℕ × Str)
  | [] => none
  | r :: rs =>
    if bndAt s (s.length - r.length) then some (s.length - r.length, r)
    else firstRemWithEndBnd s rs

/-- Attempt a pattern match at the start of `s`, taking the trailing `\b`
into account (the leading `\b` is checked by the scanners). -/
def tryMatchBnd (pat : Matcher) (s : Str) : Option (ℕ × Str) :=
  firstRemWithEndBnd s (pat s)

/-- Global scan for matches of a `\b`-anchored pattern, as `matchAll` /
repeated `exec` of a `/g` regex: records `(start, end)` offset pairs and
resumes after each match end.  `pw` tracks whether the previous character is
a word character; `fuel` only drives termination. -/
def emailScanAux (pat : Matcher) : ℕ → ℕ → Bool → Str → List (ℕ × ℕ)
  | 0, _, _, _ => []
  | _ + 1, _, _, [] => []
  | fuel + 1, off, pw, c :: rest =>
    match (if pw != wordChar c then tryMatchBnd pat (c :: rest) else none) with
    | some (consumed, rem) =>
      (off, off + consumed) ::
        emailScanAux pat fuel (off + consumed)
          (wordAtIdx (c :: rest) (consumed - 1)) rem
    | none => emailScanAux pat fuel (off + 1) (wordChar c) rest

/-- All email matches of the segmenter regex over a text. -/
def emailScan (t : Str) : List (ℕ × ℕ) :=
  emailScanAux emailCore (t.length + 1) 0 false t

/-- First match at a position ≥ `li` (`exec` with `lastIndex = li`). -/
def firstEmailFromAux (pat : Matcher) : ℕ → ℕ → Bool → Str → Option (ℕ × ℕ)
  | 0, _, _, _ => none
  | _ + 1, _, _, [] => none
  | fuel + 1, off, pw, c :: rest =>
    match (if pw != wordChar c then tryMatchBnd pat (c :: rest) else none) with
    | some (consumed, _) => some (off, off + consumed)
    | none => firstEmailFromAux pat fuel (off + 1) (wordChar c) rest

/-- `exec` of the segmenter email regex starting at `lastIndex = li`. -/
def firstEmailFrom (chunk : Str) (li : ℕ) : Option (ℕ × ℕ) :=
  firstEmailFromAux emailCore (chunk.length + 1) li
    (if li = 0 then false else wordAtIdx chunk (li - 1)) (chunk.drop li)

/-- JavaScript `emailRegex.test(chunk)` for the SHARED `/g` regex object of
`splitMultipleResumes`: the verdict plus the new `lastIndex` (end of match on
success, 0 on failure).  The statefulness across calls is faithful to the
source, which reuses one regex object inside the chunk loop. -/
def emailTestG (chunk : Str) (li : ℕ) : Bool × ℕ :=
  match firstEmailFrom chunk li with
  | some (_, e) => (true, e)
  | none => (false, 0)

/-! ## The segmenter (`splitMultipleResumes` of `backend/utils/resumeParser.js`) -/

/-- Header-marker line test:
`/(curriculum vitae|resume|bio-data|cv)/i.test(line)`. -/
def headerLineTest (line : Str) : Bool :=
  containsCI line (str "curriculum vitae") || containsCI line (str "resume") ||
    containsCI line (str "bio-data") || containsCI line (str "cv")

/-- Character offsets of the header lines
(`runningIndex += line.length + 1`). -/
def headerIndicesAux : List Str → ℕ → List ℕ
  | [], _ => []
  | line :: rest, ri =>
    if headerLineTest line then ri :: headerIndicesAux rest (ri + line.length + 1)
    else headerIndicesAux rest (ri + line.length + 1)

/-- All header-line offsets of a normalized text. -/
def headerIndices (n : Str) : List ℕ := headerIndicesAux (splitOnNl n) 0

/-- The header-splitting loop: one span per header offset, up to the next
offset (resp. the text end), trimmed, kept when longer than 100 characters. -/
def headerChunks (n : Str) : List ℕ → List Str
  | [] => []
  | [a] =>
    if 100 < (jsTrim (jsSlice n a n.length)).length then
      [jsTrim (jsSlice n a n.length)]
    else []
  | a :: b :: rest =>
    if 100 < (jsTrim (jsSlice n a b)).length then
      jsTrim (jsSlice n a b) :: headerChunks n (b :: rest)
    else headerChunks n (b :: rest)

/-- Occurrence test of `"\n\n"` at index `i`. -/
def isNlNlAt (s : Str) (i : ℕ) : Bool :=
  match s.drop i with
  | '\n' :: '\n' :: _ => true
  | _ => false

/-- JavaScript `s.lastIndexOf('\n\n', fromIdx)`: the largest occurrence
index ≤ `fromIdx`, if any. -/
def lastNlNlBefore (s : Str) (fromIdx : ℕ) : Option ℕ :=
  ((List.range (fromIdx + 1)).filter (fun j => isNlNlAt s j)).getLast?

/-- Boundary construction of the email path: for each email after the first,
cut at the last paragraph break before it when that break is more than 50
characters past the previous boundary, else at the email offset itself. -/
def emailBoundariesAux (n : Str) : List ℕ → ℕ → List ℕ
  | [], _ => []
  | idx :: rest, last =>
    match lastNlNlBefore n idx with
    | some p =>
      if last + 50 < p then p :: emailBoundariesAux n rest p
      else idx :: emailBoundariesAux n rest idx
    | none => idx :: emailBoundariesAux n rest idx

/-- The full boundary list: 0, the per-email boundaries, the text length. -/
def emailBoundaries (n : Str) (starts : List ℕ) : List ℕ :=
  (0 :: emailBoundariesAux n (starts.drop 1) 0) ++ [n.length]

/-- The email-path chunk loop.  The length filter runs first; the email
sanity filter reuses ONE `/g` regex object, so its `lastIndex` (`li`)
persists from one kept chunk to the next tested chunk. -/
def emailChunksLoop (n : Str) : List (ℕ × ℕ) → ℕ → List Str
  | [], _ => []
  | (a, b) :: rest, li =>
    if 100 < (jsTrim (jsSlice n a b)).length then
      if (emailTestG (jsTrim (jsSlice n a b)) li).1 then
        jsTrim (jsSlice n a b) ::
          emailChunksLoop n rest (emailTestG (jsTrim (jsSlice n a b)) li).2
      else emailChunksLoop n rest (emailTestG (jsTrim (jsSlice n a b)) li).2
    else emailChunksLoop n rest li

/-- The chunks of the email path for a normalized text. -/
def emailChunks (n : Str) : List Str :=
  emailChunksLoop n
    ((emailBoundaries n ((emailScan n).map Prod.fst)).zip
      ((emailBoundaries n ((emailScan n).map Prod.fst)).drop 1)) 0

/-- The email path with its final single-chunk fallback. -/
def emailSplit (n : Str) : List Str :=
  if (emailChunks n).isEmpty then [n] else emailChunks n

/-- Branching of `splitMultipleResumes` on a normalized text. -/
def splitNormalized (n : Str) : List Str :=
  if (emailScan n).length ≤ 1 then
    if (headerIndices n).length ≤ 1 then [n]
    else headerChunks n (headerIndices n)
  else emailSplit n

/-- `splitMultipleResumes(text)` from `backend/utils/resumeParser.js`. -/
def splitMultipleResumes (t : Str) : List Str :=
  if (jsTrim t).isEmpty then [] else splitNormalized (normNl t)

/-! ## The Field Parser (`parseResumeData`, enhanced variant: the one with
`Name:` / `Key Skills:` / `Education:` section handling and two experience
regex families) -/

/-- Parser output record. -/
structure ParsedResume where
  name : Str
  email : Str
  phone : Str
  skills : List Str
  experience : ExperienceInfo
  education : List EducationEntry
deriving DecidableEq, Repr

/-- Lookahead `(?=\n\s*\n|$)`: does a blank line start here? -/
def blankAhead : Str → Bool
  | '\n' :: r => (r.takeWhile isJsWs).contains '\n'
  | _ => false

/-- The lazy capture `([\s\S]*?)` up to the first blank-line lookahead or the
end of the text. -/
def captureUntilBlank : Str → Str
  | [] => []
  | c :: rest =>
    if blankAhead (c :: rest) then [] else c :: captureUntilBlank rest

/-- Try `/<label>[\s]*\n([\s\S]*?)(?=\n\s*\n|$)/i` at the start of `s`: the
greedy `[\s]*` must end at a newline, so the capture starts right after the
LAST newline of the leading whitespace run; it extends to the first blank
line or the end. -/
def labeledSectionAt (label : Str) (s : Str) : Option Str :=
  match stripPrefixCI label s with
  | none => none
  | some rest =>
    if (rest.takeWhile isJsWs).contains '\n' then
      some (captureUntilBlank (rest.drop
        ((rest.takeWhile isJsWs).length -
          ((rest.takeWhile isJsWs).reverse.takeWhile (fun c => c != '\n')).length)))
    else none

/-- First match of the labeled-section pattern anywhere in the text
(non-global regex: first position wins). -/
def sectionScan (label : Str) : Str → Option Str
  | [] => none
  | c :: rest =>
    match labeledSectionAt label (c :: rest) with
    | some cap => some cap
    | none => sectionScan label rest

/-- Keyword list of the education extraction. -/
def eduKeywords : List Str :=
  [str "bachelor", str "master", str "phd", str "degree", str "university",
   str "college", str "institute", str "mba", str "b.tech", str "m.tech"]

/-- Education extraction: only an explicit `Education:` section is searched;
its keyword-bearing lines become entries (degree = trimmed line,
institution/year empty). -/
def educationOf (t : Str) : List EducationEntry :=
  match sectionScan (str "education:") t with
  | none => []
  | some sect =>
    ((splitOnNl sect).filter (fun line =>
        eduKeywords.any (fun k => strContains (lowerStr line) k))).map
      (fun line => { degree := jsTrim line, institution := [], year := [] })

/-- The expanded skill vocabulary of the enhanced parser. -/
def skillKeywordsEnh : List Str :=
  [str "javascript", str "python", str "java", str "react", str "node.js",
   str "angular", str "vue", str "html", str "css", str "sql", str "mongodb",
   str "postgresql", str "mysql", str "git", str "docker", str "kubernetes",
   str "aws", str "azure", str "gcp", str "tensorflow", str "machine learning",
   str "data analysis", str "excel", str "powerbi", str "tableau",
   str "photoshop", str "illustrator", str "figma", str "sketch", str "ui/ux",
   str "design", str "marketing", str "seo", str "content writing",
   str "social media", str "analytics", str "project management", str "agile",
   str "scrum", str "leadership", str "communication", str "django",
   str "spring boot", str "flask", str "express", str "fastapi",
   str "rest apis", str "microservices", str "tdd", str "ci/cd", str "devops",
   str "linux", str "bash", str "powershell"]

/-- Skills: restricted to a `Key Skills:` section when one matches, else the
whole chunk; fixed-vocabulary containment, deduplicated (`new Set`). -/
def skillsOf (t : Str) : List Str :=
  (skillKeywordsEnh.filter (fun k =>
      strContains
        (lowerStr (match sectionScan (str "key skills:") t with
          | some sec => sec
          | none => t))
        (lowerStr k))).eraseDups

/-- `parseInt` of a digit run. -/
def digitsToNat (ds : Str) : ℕ := ds.foldl (fun nn c => 10 * nn + (c.toNat - 48)) 0

/-- Alternation `(?:years?|yrs?)` (case-insensitive), candidate remainders in
engine preference order. -/
def yearsCands (s : Str) : List Str :=
  [stripPrefixCI (str "years") s, stripPrefixCI (str "year") s,
   stripPrefixCI (str "yrs") s, stripPrefixCI (str "yr") s].reduceOption

/-- Alternation `(?:experience|exp)` (case-insensitive). -/
def expWordStrip (s : Str) : Option Str :=
  match stripPrefixCI (str "experience") s with
  | some r => some r
  | none => stripPrefixCI (str "exp") s

/-- First success of `f` over a list. -/
def firstSome {α β : Type} (f : α → Option β) : List α → Option β
  | [] => none
  | a :: l =>
    match f a with
    | some b => some b
    | none => firstSome f l

/-- Match of family 1, `/(\d+)\s*(?:years?|yrs?)\s*(?:of\s*)?(?:experience|exp)/i`,
at the start of `s`: the captured number and the remainder after the match.
The greedy `\d+`/`\s*` need no backtracking because the following literals
start with letters; the optional `of\s*` backtracks to the plain
`(?:experience|exp)` when needed. -/
def fam1At (s : Str) : Option (ℕ × Str) :=
  if (s.takeWhile Char.isDigit).isEmpty then none
  else
    match firstSome (fun r3 =>
        match (stripPrefixCI (str "of") (r3.dropWhile isJsWs)).bind
            (fun r5 => expWordStrip (r5.dropWhile isJsWs)) with
        | some r6 => some r6
        | none => expWordStrip (r3.dropWhile isJsWs))
      (yearsCands ((s.drop (s.takeWhile Char.isDigit).length).dropWhile isJsWs)) with
    | some r6 => some (digitsToNat (s.takeWhile Char.isDigit), r6)
    | none => none

/-- Match of family 2, `/experience:\s*(\d+)\s*years?/i`, at the start of
`s`. -/
def fam2At (s : Str) : Option (ℕ × Str) :=
  match stripPrefixCI (str "experience:") s with
  | none => none
  | some r1 =>
    if ((r1.dropWhile isJsWs).takeWhile Char.isDigit).isEmpty then none
    else
      match stripPrefixCI (str "year")
          (((r1.dropWhile isJsWs).drop
              ((r1.dropWhile isJsWs).takeWhile Char.isDigit).length).dropWhile isJsWs) with
      | none => none
      | some r4 =>
        match r4 with
        | 's' :: r5 => some (digitsToNat ((r1.dropWhile isJsWs).takeWhile Char.isDigit), r5)
        | 'S' :: r5 => some (digitsToNat ((r1.dropWhile isJsWs).takeWhile Char.isDigit), r5)
        | _ => some (digitsToNat ((r1.dropWhile isJsWs).takeWhile Char.isDigit), r4)

/-- Global scan collecting the numeric values of every match (`text.match`
with a `/g` regex + per-match digit extraction); resumes after each match. -/
def scanValuesAux (f : Str → Option (ℕ × Str)) : ℕ → Str → List ℕ
  | 0, _ => []
  | _ + 1, [] => []
  | fuel + 1, c :: rest =>
    match f (c :: rest) with
    | some (v, rem) => v :: scanValuesAux f fuel rem
    | none => scanValuesAux f fuel rest

/-- The collected integers of family 1 over a chunk. -/
def fam1Matches (t : Str) : List ℕ := scanValuesAux fam1At (t.length + 1) t

/-- The collected integers of family 2 over a chunk. -/
def fam2Matches (t : Str) : List ℕ := scanValuesAux fam2At (t.length + 1) t

/-- `Math.max(...years)` (call sites guarantee non-empty positive lists, for
which the fold from 0 is the true maximum). -/
def jsMaxNat (l : List ℕ) : ℕ := l.foldl max 0

/-- The pattern loop of the experience extraction: the FIRST family whose
positive-filtered match list is non-empty wins (`break`); the families are
never combined. -/
def pickExpYears : List (List ℕ) → ℕ
  | [] => 0
  | m :: ms =>
    if (m.filter (fun y => 0 < y)).isEmpty then pickExpYears ms
    else jsMaxNat (m.filter (fun y => 0 < y))

/-- `experienceYears` of the enhanced parser. -/
def experienceYearsOf (t : Str) : ℕ :=
  pickExpYears [fam1Matches t, fam2Matches t]

/-- Claim-side definition following the spec words for C4 (NOT the source):
the maximum integer collected across every match of BOTH regex families. -/
def maxAcrossBothFamilies (t : Str) : ℕ :=
  jsMaxNat (fam1Matches t ++ fam2Matches t)

/-- Try `/Name:\s*([^\n\r]+)/i` at the start of `s`, returning the capture.
When only whitespace follows up to a line break or the end, the engine
backtracks into the whitespace run and captures its last non-linebreak
character (which later trims to the empty string). -/
def nameMatchAt (s : Str) : Option Str :=
  match stripPrefixCI (str "name:") s with
  | none => none
  | some rest =>
    if (rest.drop (rest.takeWhile isJsWs).length).isEmpty then
      match (rest.filter (fun c => c != '\n' && c != '\r')).getLast? with
      | some lc => some [lc]
      | none => none
    else
      some ((rest.drop (rest.takeWhile isJsWs).length).takeWhile
        (fun c => c != '\n' && c != '\r'))

/-- First `Name:` match anywhere in the text. -/
def nameScan : Str → Option Str
  | [] => none
  | c :: rest =>
    match nameMatchAt (c :: rest) with
    | some cap => some cap
    | none => nameScan rest

/-- Name extraction: the trimmed `Name:` capture.  (The fallback name pattern
of the source also runs through the `text.match` branch, but it has no
capture group, so it can never set the name.) -/
def nameOf (t : Str) : Str :=
  match nameScan t with
  | some cap => jsTrim cap
  | none => []

/-- TLD class of the PARSER email regex, `[A-Z|a-z]` — it contains a literal
`'|'`. -/
def parserTldChar (c : Char) : Bool := c.isAlpha || c == '|'

/-- The parser email pattern body. -/
def parserEmailCore : Matcher :=
  mSeq (mClassAtLeast emailLocalChar 1)
    (mSeq (mChar (fun c => c == '@'))
      (mSeq (mClassAtLeast emailDomChar 1)
        (mSeq (mChar (fun c => c == '.')) (mClassAtLeast parserTldChar 2))))

/-- Email extraction: the first match of the parser email regex. -/
def emailOf (t : Str) : Str :=
  match firstEmailFromAux parserEmailCore (t.length + 1) 0 false t with
  | some (a, b) => jsSlice t a b
  | none => []

/-- Separator class `[-.\s]` of the phone regex. -/
def phoneSepChar (c : Char) : Bool := c == '-' || c == '.' || isJsWs c

/-- `/(\+?\d{1,3}[-.\s]?)?\(?\d{3}\)?[-.\s]?\d{3}[-.\s]?\d{4}/`. -/
def phonePat : Matcher :=
  mSeq (mOpt (mSeq (mOpt (mChar (fun c => c == '+')))
        (mSeq (mClassBounded Char.isDigit 1 3) (mOpt (mChar phoneSepChar)))))
    (mSeq (mOpt (mChar (fun c => c == '(')))
      (mSeq (mClassBounded Char.isDigit 3 3)
        (mSeq (mOpt (mChar (fun c => c == ')')))
          (mSeq (mOpt (mChar phoneSepChar))
            (mSeq (mClassBounded Char.isDigit 3 3)
              (mSeq (mOpt (mChar phoneSepChar))
                (mClassBounded Char.isDigit 4 4)))))))

/-- First match of an unanchored pattern: start offset and consumed length. -/
def firstMatchAux (pat : Matcher) : ℕ → ℕ → Str → Option (ℕ × ℕ)
  | 0, _, _ => none
  | _ + 1, _, [] => none
  | fuel + 1, off, c :: rest =>
    match pat (c :: rest) with
    | r :: _ => some (off, (c :: rest).length - r.length)
    | [] => firstMatchAux pat fuel (off + 1) rest

/-- Phone extraction: the first match of the phone regex. -/
def phoneOf (t : Str) : Str :=
  match firstMatchAux phonePat (t.length + 1) 0 t with
  | some (a, len) => jsSlice t a (a + len)
  | none => []

/-- `parseResumeData(text)` — the enhanced parser variant. -/
def parseResumeData (t : Str) : ParsedResume :=
  { name := nameOf t, email := emailOf t, phone := phoneOf t,
    skills := skillsOf t,
    experience := { years := experienceYearsOf t, companies := [] },
    education := educationOf t }

/-! ## Concrete inputs for the segmenter/parser claims -/

/-- C3 failing input: two well-separated emails (a paragraph break before
each), both slices longer than 100 trimmed characters and both containing
their email. -/
def c3Text : Str :=
  str "Alice\n\n" ++ List.replicate 110 'x' ++ str " alice@mail.com\n\n" ++
    str "bob@mail.com " ++ List.replicate 110 'y'

/-- The first slice of `c3Text` (the one the segmenter keeps). -/
def c3Chunk1 : Str :=
  str "Alice\n\n" ++ List.replicate 110 'x' ++ str " alice@mail.com"

/-- The second slice of `c3Text` (the one the segmenter drops although it
contains an email and is long enough). -/
def c3Chunk2 : Str := str "bob@mail.com " ++ List.replicate 110 'y'

/-- C4 counterexample chunk: family 1 matches 3, family 2 matches 12. -/
def c4Text : Str := str "3 years of experience\n\nexperience: 12 years"

/-- C4 witness chunk: family 1 yields 5 and 2. -/
def c4Sample : Str := str "5 years of experience and 2 yrs exp"

/-- C5 witness input: one email, no header-marker lines, already trimmed. -/
def c5Sample : Str := str "john doe\njohn@dot.xy\nplain text body"

/-- C5 counterexample input: one email, no header markers, but a trailing
blank, so the trimmed input differs from the normalized input. -/
def c5Cex : Str := str "john doe\njohn@dot.xy\nplain text body "

/-- C8 counterexample input: two header lines; the first span trims to
EXACTLY 100 characters. -/
def c8Text : Str :=
  str "resume\n" ++ List.replicate 93 'x' ++ str "\nresume\n" ++
    List.replicate 100 'y'

/-- The second (kept) span of `c8Text`. -/
def c8Chunk2 : Str := str "resume\n" ++ List.replicate 100 'y'

/-- C7 sample chunk with an explicit `Education:` section. -/
def eduSample : Str := str "Education:\nBachelor of Computer Science"

/-! ## Helper lemmas for the scoring theorems -/

theorem effWeight_nonneg (r : RequiredSkill) (h : 0 ≤ r.weight) :
    0 ≤ effWeight r := by
  unfold effWeight
  split
  · norm_num
  · exact h

theorem matchedWeight_nonneg (c : CandidateData) (j : JobRole)
    (h : ∀ r ∈ j.requiredSkills, 0 ≤ r.weight) : 0 ≤ matchedWeight c j := by
  unfold matchedWeight
  apply List.sum_nonneg
  intro x hx
  simp only [List.mem_map] at hx
  obtain ⟨r, hr, rfl⟩ := hx
  split
  · exact effWeight_nonneg r (h r hr)
  · exact le_refl 0

theorem baseScore_nonneg (c : CandidateData) (j : JobRole)
    (h : ∀ r ∈ j.requiredSkills, 0 ≤ r.weight) : 0 ≤ baseScore c j := by
  unfold baseScore
  split_ifs with ht
  · exact mul_nonneg (div_nonneg (matchedWeight_nonneg c j h) (le_of_lt ht))
      (by norm_num)
  · exact le_refl 0

theorem experienceBonus_nonneg (lv : ExperienceLevel) (y : ℕ) :
    0 ≤ experienceBonus lv y := by
  cases lv <;> simp only [experienceBonus] <;> split_ifs <;> norm_num

theorem educationBonus_nonneg (c : CandidateData) : 0 ≤ educationBonus c := by
  unfold educationBonus
  split_ifs <;> norm_num

theorem jsRound_eq (q : ℚ) : jsRound q = ⌊q + 1/2⌋ :=
  (Rat.floor_def' (q + 1/2)).trans Rat.floor_def.symm

theorem jsRound_nonneg (q : ℚ) (h : 0 ≤ q) : 0 ≤ jsRound q := by
  rw [jsRound_eq]
  have h2 : (0:ℚ) ≤ q + 1/2 := by linarith
  have h3 := Int.floor_le_floor h2
  simpa using h3

theorem jsRound_mono (a b : ℚ) (h : a ≤ b) : jsRound a ≤ jsRound b := by
  rw [jsRound_eq, jsRound_eq]
  exact Int.floor_le_floor (by linarith)

theorem bestFold_noUpdate (c : CandidateData) (l : List JobRole) :
    ∀ (best : ℤ) (b0 : Option ℕ),
      (∀ j ∈ l, (calculateATSScore c j).score ≤ best) →
      bestFold c l best b0 = (best, b0) := by
  induction l with
  | nil => intro best b0 _; rfl
  | cons r rs ih =>
    intro best b0 h
    have hr : (calculateATSScore c r).score ≤ best := h r (by simp)
    unfold bestFold
    rw [if_neg (not_lt.mpr hr)]
    exact ih best b0 (fun j hj => h j (by simp [hj]))

theorem bestFold_argmax (c : CandidateData) (l : List JobRole) :
    ∀ (best : ℤ) (b0 : Option ℕ) (i : ℕ) (hi : i < l.length),
      (∀ jn (hj : jn < l.length),
        (calculateATSScore c (l.get ⟨jn, hj⟩)).score ≤
          (calculateATSScore c (l.get ⟨i, hi⟩)).score) →
      (∀ jn (hj : jn < i),
        (calculateATSScore c (l.get ⟨jn, Nat.lt_trans hj hi⟩)).score <
          (calculateATSScore c (l.get ⟨i, hi⟩)).score) →
      best < (calculateATSScore c (l.get ⟨i, hi⟩)).score →
      (bestFold c l best b0).2 = some ((l.get ⟨i, hi⟩).id) := by
  induction l with
  | nil => intro best b0 i hi; exact absurd hi (by simp)
  | cons r rs ih =>
    intro best b0 i hi hmax hfirst hpos
    cases i with
    | zero =>
      have hpos0 : best < (calculateATSScore c r).score := by
        simpa using hpos
      unfold bestFold
      rw [if_pos hpos0]
      have hrest : ∀ j ∈ rs,
          (calculateATSScore c j).score ≤ (calculateATSScore c r).score := by
        intro j hj
        obtain ⟨k, hk, rfl⟩ := List.getElem_of_mem hj
        have h2 := hmax (k + 1) (by simpa using Nat.succ_lt_succ hk)
        simpa using h2
      rw [bestFold_noUpdate c rs _ _ hrest]
      simp
    | succ k =>
      have hk : k < rs.length := by simpa using hi
      have hgoal : ((r :: rs).get ⟨k + 1, hi⟩) = rs.get ⟨k, hk⟩ := by
        simp
      rw [hgoal] at hmax hfirst hpos ⊢
      have hrk : (calculateATSScore c r).score <
          (calculateATSScore c (rs.get ⟨k, hk⟩)).score := by
        have h0 := hfirst 0 (Nat.succ_pos k)
        simpa using h0
      have hmax2 : ∀ jn (hj : jn < rs.length),
          (calculateATSScore c (rs.get ⟨jn, hj⟩)).score ≤
            (calculateATSScore c (rs.get ⟨k, hk⟩)).score := by
        intro jn hj
        have h2 := hmax (jn + 1) (by simpa using Nat.succ_lt_succ hj)
        simpa using h2
      have hfirst2 : ∀ jn (hj : jn < k),
          (calculateATSScore c (rs.get ⟨jn, Nat.lt_trans hj hk⟩)).score <
            (calculateATSScore c (rs.get ⟨k, hk⟩)).score := by
        intro jn hj
        have h2 := hfirst (jn + 1) (Nat.succ_lt_succ hj)
        simpa using h2
      unfold bestFold
      split
      · exact ih ((calculateATSScore c r).score) (some r.id) k hk hmax2 hfirst2 hrk
      · exact ih best b0 k hk hmax2 hfirst2 hpos

/-! ## Claim theorems: scoring -/

/-- C1: for every candidate facts value and every job role (whose skill
weights are non-negative, as the schema guarantees via `min: 0.1`), the score
computed by `calculateATSScore` satisfies `0 ≤ score ≤ 100`. -/
theorem score_bounds (c : CandidateData) (j : JobRole)
    (hw : ∀ r ∈ j.requiredSkills, 0 ≤ r.weight) :
    0 ≤ (calculateATSScore c j).score ∧ (calculateATSScore c j).score ≤ 100 := by
  unfold calculateATSScore
  split
  · exact ⟨le_refl 0, by norm_num⟩
  · constructor
    · apply le_min (by norm_num)
      apply jsRound_nonneg
      have h1 := baseScore_nonneg c j hw
      have h2 := experienceBonus_nonneg j.experienceLevel c.experience.years
      have h3 := educationBonus_nonneg c
      linarith
    · exact min_le_left _ _

/-- C1 witness: the bounds at a concrete candidate and role. -/
theorem score_bounds_witness :
    0 ≤ (calculateATSScore pyCandidate pyRole).score ∧
      (calculateATSScore pyCandidate pyRole).score ≤ 100 :=
  score_bounds pyCandidate pyRole (by decide)

/-- C10: when every supplied role scores 0, `calculateAllJobRoleScores`
returns `bestMatchJobRole = null` and `bestMatchScore = 0`, even for a
non-empty role list — the tracker starts at 0 and only a strictly greater
score replaces it. -/
theorem allZero_noBestMatch (c : CandidateData) (roles : List JobRole)
    (hz : ∀ j ∈ roles, (calculateATSScore c j).score = 0) :
    (calculateAllJobRoleScores c roles).bestMatchJobRole = none ∧
      (calculateAllJobRoleScores c roles).bestMatchScore = 0 := by
  have h := bestFold_noUpdate c roles 0 none (fun j hj => le_of_eq (hz j hj))
  unfold calculateAllJobRoleScores
  rw [h]
  exact ⟨rfl, rfl⟩

/-- C10 witness: a non-empty list of two all-zero roles yields no best
match. -/
theorem allZero_noBestMatch_witness :
    (calculateAllJobRoleScores emptyCandidate [emptyRole1, emptyRole2]).bestMatchJobRole
        = none ∧
      (calculateAllJobRoleScores emptyCandidate [emptyRole1, emptyRole2]).bestMatchScore
        = 0 :=
  allZero_noBestMatch emptyCandidate [emptyRole1, emptyRole2] (by decide)

/-- C2 counterexample: two roles with identical computed scores (both 0) for
which `bestMatchRoleId` is NOT the first of the two in input order — it is
`null`, because the tracker starts at 0 and only strictly greater scores win. -/
theorem tieBreak_counterexample :
    (calculateATSScore emptyCandidate emptyRole1).score =
        (calculateATSScore emptyCandidate emptyRole2).score ∧
      (calculateAllJobRoleScores emptyCandidate [emptyRole1, emptyRole2]).bestMatchJobRole
        ≠ some emptyRole1.id := by
  decide

/-- C2 (amended): `calculateAllJobRoleScores` scans the roles in their given
order and returns as `bestMatchJobRole` the first role whose score equals the
maximum computed score, provided that maximum is strictly positive (ties at
the top are won by the earlier role; when every score is ≤ 0 the result is
`null` instead, see the counterexample). -/
theorem scoreAll_first_argmax (c : CandidateData) (roles : List JobRole)
    (i : ℕ) (hi : i < roles.length)
    (hmax : ∀ jn (hj : jn < roles.length),
      (calculateATSScore c (roles.get ⟨jn, hj⟩)).score ≤
        (calculateATSScore c (roles.get ⟨i, hi⟩)).score)
    (hfirst : ∀ jn (hj : jn < i),
      (calculateATSScore c (roles.get ⟨jn, Nat.lt_trans hj hi⟩)).score <
        (calculateATSScore c (roles.get ⟨i, hi⟩)).score)
    (hpos : 0 < (calculateATSScore c (roles.get ⟨i, hi⟩)).score) :
    (calculateAllJobRoleScores c roles).bestMatchJobRole =
      some ((roles.get ⟨i, hi⟩).id) := by
  unfold calculateAllJobRoleScores
  exact bestFold_argmax c roles 0 none i hi hmax hfirst hpos

/-- C2 witness: with two roles of identical positive score the first one's id
is returned. -/
theorem scoreAll_first_argmax_witness :
    (calculateAllJobRoleScores pyCandidate [pyRole, c6RoleOther]).bestMatchJobRole
      = some 7 := by
  have h := scoreAll_first_argmax pyCandidate [pyRole, c6RoleOther] 0 (by decide)
    (by decide) (by decide) (by decide)
  simpa using h

/-- C9 (skills-score monotonicity): adding a skill that is required by the
role to the candidate's skill list never decreases the `skillsScore`
component of the breakdown. -/
theorem skillsScore_monotone (c : CandidateData) (j : JobRole) (s : Str)
    (hw : ∀ r ∈ j.requiredSkills, 0 ≤ r.weight)
    (hs : s ∈ j.requiredSkills.map RequiredSkill.skill) :
    ∀ bd bd2, (calculateATSScore c j).breakdown = some bd →
      (calculateATSScore (addSkill c s) j).breakdown = some bd2 →
      bd.skillsScore ≤ bd2.skillsScore := by
  intro bd bd2 h1 h2
  by_cases hne : j.requiredSkills.isEmpty
  · unfold calculateATSScore at h1
    rw [if_pos hne] at h1
    simp at h1
  · unfold calculateATSScore at h1 h2
    rw [if_neg hne] at h1
    rw [if_neg hne] at h2
    have e1 : ({ skillsScore := jsRound (baseScore c j),
                 experienceBonus :=
                   experienceBonus j.experienceLevel c.experience.years,
                 educationBonus := educationBonus c } : ScoreBreakdown) = bd :=
      Option.some.inj h1
    have e2 : ({ skillsScore := jsRound (baseScore (addSkill c s) j),
                 experienceBonus :=
                   experienceBonus j.experienceLevel (addSkill c s).experience.years,
                 educationBonus :=
                   educationBonus (addSkill c s) } : ScoreBreakdown) = bd2 :=
      Option.some.inj h2
    rw [← e1, ← e2]
    show jsRound (baseScore c j) ≤ jsRound (baseScore (addSkill c s) j)
    apply jsRound_mono
    have hmono : matchedWeight c j ≤ matchedWeight (addSkill c s) j := by
      unfold matchedWeight
      apply List.sum_le_sum
      intro r hr
      by_cases hm : skillMatchedB c r = true
      · have hm2 : skillMatchedB (addSkill c s) r = true := by
          simp only [skillMatchedB, directMatchB, textMatchB, addSkill,
            List.map_cons, List.contains_cons, Bool.or_eq_true] at hm ⊢
          tauto
        simp [hm, hm2]
      · have hm0 : skillMatchedB c r = false := by
          cases hb : skillMatchedB c r
          · rfl
          · exact absurd hb hm
        simp only [hm0, Bool.false_eq_true, if_false]
        split_ifs
        · exact effWeight_nonneg r (hw r hr)
        · exact le_refl 0
    unfold baseScore
    have htw : totalWeight j = totalWeight j := rfl
    split_ifs with h
    · rw [div_eq_mul_inv, div_eq_mul_inv]
      apply mul_le_mul_of_nonneg_right _ (by norm_num : (0:ℚ) ≤ 80)
      exact mul_le_mul_of_nonneg_right hmono (inv_nonneg.mpr (le_of_lt h))
    · exact le_refl 0

/-- C9 witness: concrete monotonicity instance. -/
theorem skillsScore_monotone_witness :
    ({ skillsScore := 0, experienceBonus := 5, educationBonus := 0 } :
        ScoreBreakdown).skillsScore ≤
      ({ skillsScore := 80, experienceBonus := 5, educationBonus := 0 } :
        ScoreBreakdown).skillsScore :=
  skillsScore_monotone emptyCandidate pyRole (str "python") (by decide)
    (by decide) _ _ (by decide) (by decide)

/-! ## Claim theorem: job-role scoping of the upload routes (C6) -/

/-- C6: the bulk-upload route's role query drops the owner scope.  At this
concrete store (one active role owned by the uploader, user 1, and one active
role owned by user 2), the bulk query differs from the owner-scoped query the
single-upload route uses, and the other user's role not only contributes to
scoring but becomes `bestMatchJobRole`; with the owner-scoped query the
result differs. -/
theorem bulk_role_scope_bug :
    jobRolesForBulkUpload [c6RoleOwn, c6RoleOther] ≠
        jobRolesForSingleUpload [c6RoleOwn, c6RoleOther] 1 ∧
      (calculateAllJobRoleScores pyCandidate
          (jobRolesForBulkUpload [c6RoleOwn, c6RoleOther])).bestMatchJobRole
        = some c6RoleOther.id ∧
      c6RoleOther.createdBy ≠ 1 ∧
      (calculateAllJobRoleScores pyCandidate
          (jobRolesForSingleUpload [c6RoleOwn, c6RoleOther] 1)).bestMatchJobRole
        = some c6RoleOwn.id := by
  decide

/-! ## Helper lemmas for the segmenter/parser theorems -/

theorem headerIndicesAux_nil (lines : List Str) :
    ∀ ri, (∀ line ∈ lines, headerLineTest line = false) →
      headerIndicesAux lines ri = [] := by
  induction lines with
  | nil => intro ri _; rfl
  | cons l ls ih =>
    intro ri h
    unfold headerIndicesAux
    rw [if_neg (by simp [h l (by simp)])]
    exact ih _ (fun line hl => h line (by simp [hl]))

theorem headerChunks_length (n : Str) :
    ∀ (idxs : List ℕ) (c : Str), c ∈ headerChunks n idxs → 100 < c.length := by
  intro idxs
  induction idxs with
  | nil => intro c hc; simp [headerChunks] at hc
  | cons a rest ih =>
    intro c hc
    cases rest with
    | nil =>
      unfold headerChunks at hc
      split at hc
      · rcases List.mem_singleton.mp hc with rfl
        assumption
      · simp at hc
    | cons b rest2 =>
      unfold headerChunks at hc
      split at hc
      · rcases List.mem_cons.mp hc with rfl | hmem
        · assumption
        · exact ih c hmem
      · exact ih c hc

theorem headerChunks_keep (n : Str) :
    ∀ (idxs : List ℕ) (i : ℕ) (hi : i < idxs.length),
      100 < (jsTrim (jsSlice n (idxs.get ⟨i, hi⟩)
        (idxs.getD (i + 1) n.length))).length →
      jsTrim (jsSlice n (idxs.get ⟨i, hi⟩) (idxs.getD (i + 1) n.length)) ∈
        headerChunks n idxs := by
  intro idxs
  induction idxs with
  | nil => intro i hi; exact absurd hi (by simp)
  | cons a rest ih =>
    intro i hi h
    cases i with
    | zero =>
      cases rest with
      | nil =>
        simp only [List.get_cons_zero, List.getD] at h ⊢
        unfold headerChunks
        rw [if_pos (by simpa using h)]
        simp
      | cons b rest2 =>
        simp only [List.get_cons_zero, List.getD_cons_succ, List.getD_cons_zero] at h ⊢
        unfold headerChunks
        rw [if_pos (by simpa using h)]
        simp
    | succ k =>
      cases rest with
      | nil => exact absurd hi (by simp)
      | cons b rest2 =>
        have hk : k < (b :: rest2).length := by simpa using hi
        have h2 : 100 < (jsTrim (jsSlice n ((b :: rest2).get ⟨k, hk⟩)
            ((b :: rest2).getD (k + 1) n.length))).length := by
          simpa using h
        have hmem := ih k hk h2
        have hsame : jsTrim (jsSlice n ((a :: b :: rest2).get ⟨k + 1, hi⟩)
            ((a :: b :: rest2).getD (k + 1 + 1) n.length)) =
            jsTrim (jsSlice n ((b :: rest2).get ⟨k, hk⟩)
              ((b :: rest2).getD (k + 1) n.length)) := by
          simp
        rw [hsame]
        unfold headerChunks
        split
        · exact List.mem_cons_of_mem _ hmem
        · exact hmem

theorem emailChunksLoop_length (n : Str) :
    ∀ (pairs : List (ℕ × ℕ)) (li : ℕ) (c : Str),
      c ∈ emailChunksLoop n pairs li → 100 < c.length := by
  intro pairs
  induction pairs with
  | nil => intro li c hc; simp [emailChunksLoop] at hc
  | cons p rest ih =>
    intro li c hc
    obtain ⟨a, b⟩ := p
    unfold emailChunksLoop at hc
    split at hc
    · split at hc
      · rcases List.mem_cons.mp hc with rfl | hmem
        · assumption
        · exact ih _ c hmem
      · exact ih _ c hc
    · exact ih _ c hc

theorem foldlMax_le (l : List ℕ) :
    ∀ a, a ≤ l.foldl max a ∧ ∀ x ∈ l, x ≤ l.foldl max a := by
  induction l with
  | nil => intro a; exact ⟨le_refl a, by simp⟩
  | cons y ys ih =>
    intro a
    have h1 := ih (max a y)
    constructor
    · exact le_trans (le_max_left a y) h1.1
    · intro x hx
      rcases List.mem_cons.mp hx with rfl | hmem
      · exact le_trans (le_max_right a x) h1.1
      · exact h1.2 x hmem

theorem foldlMax_mem (l : List ℕ) :
    ∀ a, l.foldl max a = a ∨ l.foldl max a ∈ l := by
  induction l with
  | nil => intro a; exact Or.inl rfl
  | cons y ys ih =>
    intro a
    rcases ih (max a y) with h | h
    · rcases le_total a y with hay | hya
      · right
        rw [List.foldl_cons, h, max_eq_right hay]
        simp
      · left
        rw [List.foldl_cons, h, max_eq_left hya]
    · right
      rw [List.foldl_cons]
      exact List.mem_cons_of_mem _ h

theorem jsMaxNat_spec (l : List ℕ) (hne : l ≠ []) (hpos : ∀ x ∈ l, 0 < x) :
    jsMaxNat l ∈ l ∧ ∀ x ∈ l, x ≤ jsMaxNat l := by
  unfold jsMaxNat
  have h1 := foldlMax_le l 0
  rcases foldlMax_mem l 0 with h0 | hm
  · exfalso
    obtain ⟨y, hy⟩ := List.exists_mem_of_ne_nil l hne
    have hb := h1.2 y hy
    rw [h0] at hb
    have := hpos y hy
    omega
  · exact ⟨hm, h1.2⟩

theorem stripPrefixCI_isPrefix (nl : Str) :
    ∀ (s r : Str), stripPrefixCI nl s = some r →
      (lowerStr nl).isPrefixOf (lowerStr s) = true := by
  induction nl with
  | nil => intro s r _; simp [lowerStr, List.isPrefixOf]
  | cons n ns ih =>
    intro s r h
    cases s with
    | nil => exact absurd h (by simp [stripPrefixCI])
    | cons c cs =>
      unfold stripPrefixCI at h
      split at h
      · have hpre := ih cs r h
        simp only [lowerStr, List.map_cons, List.isPrefixOf]
        rename_i heq
        rw [heq]
        simp only [beq_self_eq_true, Bool.true_and]
        simpa [lowerStr] using hpre
      · exact absurd h (by simp)

theorem strContains_cons (c : Char) (t needle : Str) :
    strContains (c :: t) needle =
      (needle.isPrefixOf (c :: t) || strContains t needle) := rfl

theorem sectionScan_containsCI (label : Str) :
    ∀ (t : Str) (cap : Str), sectionScan label t = some cap →
      containsCI t label = true := by
  intro t
  induction t with
  | nil => intro cap h; exact absurd h (by simp [sectionScan])
  | cons c rest ih =>
    intro cap h
    unfold sectionScan at h
    cases hl : labeledSectionAt label (c :: rest) with
    | some cap2 =>
      unfold labeledSectionAt at hl
      cases hs : stripPrefixCI label (c :: rest) with
      | none => rw [hs] at hl; exact absurd hl (by simp)
      | some r =>
        have hpre := stripPrefixCI_isPrefix label (c :: rest) r hs
        unfold containsCI
        rw [show lowerStr (c :: rest) = c.toLower :: lowerStr rest from by
          simp [lowerStr]]
        rw [show lowerStr (c :: rest) = c.toLower :: lowerStr rest from by
          simp [lowerStr]] at hpre
        rw [strContains_cons, hpre]
        simp
    | none =>
      rw [hl] at h
      have hc := ih cap h
      unfold containsCI at hc ⊢
      rw [show lowerStr (c :: rest) = c.toLower :: lowerStr rest from by
        simp [lowerStr]]
      rw [strContains_cons, hc]
      simp

/-! ## Claim theorems: segmenter (C3, C5, C8) -/

/-- C3 (at the failing input): `c3Text` contains exactly two emails, each
preceded by a paragraph break; both slices trim to more than 100 characters
and each contains exactly its own email — yet `splitMultipleResumes` returns
only ONE chunk.  The second slice is dropped because the shared `/g` email
regex enters its sanity test with `lastIndex = 132` (the end of the first
chunk's match), beyond the second chunk's length. -/
theorem multi_email_chunk_dropped :
    (emailScan (normNl c3Text)).length = 2 ∧
      jsTrim (jsSlice (normNl c3Text) 132 (normNl c3Text).length) = c3Chunk2 ∧
      100 < c3Chunk2.length ∧
      (emailScan c3Chunk2).length = 1 ∧
      splitMultipleResumes c3Text = [c3Chunk1] ∧
      c3Chunk2 ∉ splitMultipleResumes c3Text := by
  decide

/-- C5 counterexample: one email, no header markers, but a trailing blank —
the single returned chunk is the NORMALIZED input, not the trimmed one (the
code returns `[normalized]` without trimming). -/
theorem single_chunk_not_trimmed :
    splitMultipleResumes c5Cex = [normNl c5Cex] ∧
      splitMultipleResumes c5Cex ≠ [jsTrim (normNl c5Cex)] := by
  decide

/-- C5 (amended): for every non-empty input with exactly one email occurrence
and no header-marker line, the segmenter returns exactly one chunk: the
newline-normalized (NOT trimmed) input. -/
theorem single_email_single_chunk (t : Str)
    (h0 : (jsTrim t).isEmpty = false)
    (h1 : (emailScan (normNl t)).length = 1)
    (h2 : ∀ line ∈ splitOnNl (normNl t), headerLineTest line = false) :
    splitMultipleResumes t = [normNl t] := by
  unfold splitMultipleResumes
  rw [if_neg (by simp [h0])]
  unfold splitNormalized
  rw [if_pos (by simp [h1])]
  have hh : headerIndices (normNl t) = [] := by
    unfold headerIndices
    exact headerIndicesAux_nil _ 0 h2
  rw [hh]
  simp

/-- C5 witness: a concrete one-email text is returned whole. -/
theorem single_email_single_chunk_witness :
    splitMultipleResumes c5Sample = [normNl c5Sample] :=
  single_email_single_chunk c5Sample (by decide) (by decide) (by decide)

/-- C8 counterexample: a span whose trimmed length is exactly 100 (hence
"at least 100") is discarded by the header path — the filter is strict
(`> 100`), so the claim's "at least 100 characters is viable" fails. -/
theorem hundred_char_span_discarded :
    (jsTrim (jsSlice (normNl c8Text) 0 101)).length = 100 ∧
      headerIndices (normNl c8Text) = [0, 101] ∧
      splitMultipleResumes c8Text = [c8Chunk2] ∧
      jsTrim (jsSlice (normNl c8Text) 0 101) ∉ splitMultipleResumes c8Text := by
  decide

/-- C8 (amended): on the splitting paths, every surfaced chunk has trimmed
length STRICTLY greater than 100; on the header path every span trimming to
more than 100 characters is kept; spans of trimmed length ≤ 100 (including
exactly 100) are silently discarded on both paths. -/
theorem chunk_length_filter :
    (∀ (n : Str) (idxs : List ℕ) (c : Str),
        c ∈ headerChunks n idxs → 100 < c.length) ∧
      (∀ (n : Str) (idxs : List ℕ) (i : ℕ) (hi : i < idxs.length),
        100 < (jsTrim (jsSlice n (idxs.get ⟨i, hi⟩)
          (idxs.getD (i + 1) n.length))).length →
        jsTrim (jsSlice n (idxs.get ⟨i, hi⟩) (idxs.getD (i + 1) n.length)) ∈
          headerChunks n idxs) ∧
      (∀ (n : Str) (pairs : List (ℕ × ℕ)) (li : ℕ) (c : Str),
        c ∈ emailChunksLoop n pairs li → 100 < c.length) :=
  ⟨fun n idxs c hc => headerChunks_length n idxs c hc,
   fun n idxs i hi h => headerChunks_keep n idxs i hi h,
   fun n pairs li c hc => emailChunksLoop_length n pairs li c hc⟩

/-- C8 witness: the long second span of `c8Text` is kept by the header path. -/
theorem chunk_length_filter_witness :
    jsTrim (jsSlice (normNl c8Text) ([0, 101].get ⟨1, by decide⟩)
        ([0, 101].getD 2 (normNl c8Text).length)) ∈
      headerChunks (normNl c8Text) [0, 101] :=
  chunk_length_filter.2.1 (normNl c8Text) [0, 101] 1 (by decide) (by decide)

/-! ## Claim theorems: field parser (C4, C7) -/

/-- C4 counterexample: a chunk where family 1 yields 3 and family 2 yields
12; the parser reports 3 (the first family wins and `break`s), NOT the
maximum across both families (12). -/
theorem experience_not_max_across_families :
    (parseResumeData c4Text).experience.years = 3 ∧
      maxAcrossBothFamilies c4Text = 12 ∧
      (parseResumeData c4Text).experience.years ≠ maxAcrossBothFamilies c4Text := by
  decide

/-- C4 (amended): `experienceYears` is the maximum of the positive integers
matched by the FIRST regex family that yields any positive integer (family 1
tried before family 2; the families are never combined), and 0 when neither
family yields a positive integer. -/
theorem experience_family_priority (t : Str) :
    ((fam1Matches t).filter (fun y => 0 < y) ≠ [] →
       (parseResumeData t).experience.years ∈
           (fam1Matches t).filter (fun y => 0 < y) ∧
         ∀ x ∈ (fam1Matches t).filter (fun y => 0 < y),
           x ≤ (parseResumeData t).experience.years) ∧
      ((fam1Matches t).filter (fun y => 0 < y) = [] →
        (fam2Matches t).filter (fun y => 0 < y) ≠ [] →
        (parseResumeData t).experience.years ∈
            (fam2Matches t).filter (fun y => 0 < y) ∧
          ∀ x ∈ (fam2Matches t).filter (fun y => 0 < y),
            x ≤ (parseResumeData t).experience.years) ∧
      ((fam1Matches t).filter (fun y => 0 < y) = [] →
        (fam2Matches t).filter (fun y => 0 < y) = [] →
        (parseResumeData t).experience.years = 0) := by
  have hyy : (parseResumeData t).experience.years =
      pickExpYears [fam1Matches t, fam2Matches t] := rfl
  have hpos1 : ∀ x ∈ (fam1Matches t).filter (fun y => 0 < y), 0 < x := by
    intro x hx
    have := List.mem_filter.mp hx
    exact of_decide_eq_true this.2
  have hpos2 : ∀ x ∈ (fam2Matches t).filter (fun y => 0 < y), 0 < x := by
    intro x hx
    have := List.mem_filter.mp hx
    exact of_decide_eq_true this.2
  refine ⟨?_, ?_, ?_⟩
  · intro hne
    rw [hyy]
    unfold pickExpYears
    rw [if_neg (by simpa [List.isEmpty_iff] using hne)]
    exact jsMaxNat_spec _ hne hpos1
  · intro he1 hne2
    rw [hyy]
    unfold pickExpYears
    rw [if_pos (by simp [he1])]
    unfold pickExpYears
    rw [if_neg (by simpa [List.isEmpty_iff] using hne2)]
    exact jsMaxNat_spec _ hne2 hpos2
  · intro he1 he2
    rw [hyy]
    unfold pickExpYears
    rw [if_pos (by simp [he1])]
    unfold pickExpYears
    rw [if_pos (by simp [he2])]
    rfl

/-- C4 witness: on a chunk where family 1 matches 5 and 2, the reported value
bounds both matches and is one of them. -/
theorem experience_family_priority_witness :
    (parseResumeData c4Sample).experience.years ∈
        (fam1Matches c4Sample).filter (fun y => 0 < y) ∧
      ∀ x ∈ (fam1Matches c4Sample).filter (fun y => 0 < y),
        x ≤ (parseResumeData c4Sample).experience.years :=
  (experience_family_priority c4Sample).1 (by decide)

/-- C7: the education list is populated only when the explicit `Education:`
section pattern matches: a non-empty education list implies the section
pattern matched, which in turn implies the literal `education:` occurs in the
chunk (case-insensitively); when the section pattern does not match, the
education list is empty — there is no whole-chunk fallback search. -/
theorem education_requires_section (t : Str) :
    ((parseResumeData t).education ≠ [] →
        sectionScan (str "education:") t ≠ none) ∧
      ((parseResumeData t).education ≠ [] →
        containsCI t (str "education:") = true) ∧
      (sectionScan (str "education:") t = none →
        (parseResumeData t).education = []) := by
  have hed : (parseResumeData t).education = educationOf t := rfl
  refine ⟨?_, ?_, ?_⟩
  · intro hne hnone
    apply hne
    rw [hed]
    unfold educationOf
    rw [hnone]
  · intro hne
    cases hs : sectionScan (str "education:") t with
    | none =>
      exfalso
      apply hne
      rw [hed]
      unfold educationOf
      rw [hs]
    | some cap => exact sectionScan_containsCI _ t cap hs
  · intro hnone
    rw [hed]
    unfold educationOf
    rw [hnone]

/-- C7 witness: a chunk with an explicit section yields entries, and the
theorem derives the label occurrence. -/
theorem education_requires_section_witness :
    (parseResumeData eduSample).education ≠ [] ∧
      containsCI eduSample (str "education:") = true :=
  ⟨by decide, (education_requires_section eduSample).2.1 (by decide)⟩
